import Mathlib

/-!
# Task list engine of `App.js`

A shallow embedding of the state engine of `src/App.js`: the `tasks` state,
the handlers `addTask`, `toggleTaskCompleted`, `deleteTask`, and the two
effects `loadTasks` / `saveTasks` that synchronise `tasks` with `AsyncStorage`
under the key `'tasks'`.

JavaScript strings are sequences of UTF-16 code units; they are modelled as
lists of natural numbers (a real code unit is below 65536; nothing below
depends on that bound).
-/

namespace TaskApp

/-- A JavaScript string: its sequence of UTF-16 code units. -/
abbrev JSString := List Nat

/-! ## `String.prototype.trim` -/

/-- The code units stripped by `String.prototype.trim`: ECMAScript `WhiteSpace`
(TAB, VT, FF, SP, NBSP, ZWNBSP and the Unicode `Zs` category) and
`LineTerminator` (LF, CR, LS, PS). -/
def isWhiteSpace (c : Nat) : Bool :=
  c == 0x09 || c == 0x0A || c == 0x0B || c == 0x0C || c == 0x0D || c == 0x20
    || c == 0xA0 || c == 0x1680 || (0x2000 ≤ c && c ≤ 0x200A)
    || c == 0x2028 || c == 0x2029 || c == 0x202F || c == 0x205F
    || c == 0x3000 || c == 0xFEFF

/-- `String.prototype.trimStart`. -/
def trimStart (s : JSString) : JSString := s.dropWhile isWhiteSpace

/-- `String.prototype.trimEnd`. -/
def trimEnd (s : JSString) : JSString := (s.reverse.dropWhile isWhiteSpace).reverse

/-- `String.prototype.trim`: white space removed from both ends. -/
def trim (s : JSString) : JSString := trimEnd (trimStart s)

/-! ## `Date.now().toString()` -/

/-- Decimal digits of a natural number as code units (`'0'` is 48). -/
def decimal (n : Nat) : JSString := (Nat.toDigits 10 n).map Char.toNat

/-- `Number.prototype.toString` on an integral time value (milliseconds since
the epoch; its magnitude is at most 8.64e15, so the result is the plain decimal
numeral, with a leading `-` (45) below zero). -/
def numberToString : Int → JSString
  | Int.ofNat n => decimal n
  | Int.negSucc n => 45 :: decimal (n + 1)

/-! ## Data model -/

/-- A task record `{ id, text, completed }`. -/
structure Task where
  id : JSString
  text : JSString
  completed : Bool
  deriving DecidableEq, Repr

/-- What the handlers ask of the platform besides state updates. -/
inductive Effect where
  /-- The call `Alert.alert(title, message)` without buttons. -/
  | alert (title message : String)
  /-- The call `Alert.alert(title, message, buttons)`; the labels of the buttons. -/
  | confirm (title message : String) (buttons : List String)
  /-- The call `Keyboard.dismiss()`. -/
  | keyboardDismiss
  /-- The call `console.error(message, error)`. -/
  | consoleError (message : String)
  deriving DecidableEq, Repr

/-- The fixed storage key `'tasks'`. -/
def tasksKey : JSString := [116, 97, 115, 107, 115]

/-- Contents of `AsyncStorage`: the string stored under each key, if any. -/
abbrev Storage := JSString → Option JSString

/-- `AsyncStorage.getItem(key)`: the stored string, or `none` for `null`. -/
def Storage.getItem (st : Storage) (key : JSString) : Option JSString := st key

/-- `AsyncStorage.setItem(key, value)`: overwrites the value under `key`. -/
def Storage.setItem (st : Storage) (key value : JSString) : Storage :=
  fun k => if k = key then some value else st k

/-! ## JSON values and `JSON.parse` -/

/-- A value built by `JSON.parse`. An object is its list of own properties in
creation order. A number keeps the text of its numeric literal (its conversion
to a double is not modelled). -/
inductive JSValue where
  | null
  | bool (b : Bool)
  | number (literal : JSString)
  | string (s : JSString)
  | array (elems : List JSValue)
  | object (props : List (JSString × JSValue))

/-- Errors thrown by the modelled library calls. -/
inductive JSError where
  /-- The `SyntaxError` thrown by `JSON.parse` on a malformed text. -/
  | jsonSyntax
  deriving DecidableEq, Repr

/-- JSON white space: TAB, LF, CR, SP. -/
def isJSONWhiteSpace (c : Nat) : Bool := c == 9 || c == 10 || c == 13 || c == 32

/-- Drops leading JSON white space. -/
def skipWs : List Nat → List Nat
  | [] => []
  | c :: rest => if isJSONWhiteSpace c then skipWs rest else c :: rest

/-- Is a decimal digit `'0'..'9'`. -/
def isDigit (c : Nat) : Bool := 48 ≤ c && c ≤ 57

/-- Value of a hexadecimal digit, upper or lower case. -/
def hexVal (c : Nat) : Option Nat :=
  if 48 ≤ c ∧ c ≤ 57 then some (c - 48)
  else if 97 ≤ c ∧ c ≤ 102 then some (c - 87)
  else if 65 ≤ c ∧ c ≤ 70 then some (c - 55)
  else none

/-- The code unit denoted by the four hexadecimal digits of a `\uXXXX` escape. -/
def hex4 (a b c d : Nat) : Option Nat :=
  match hexVal a, hexVal b, hexVal c, hexVal d with
  | some x, some y, some z, some w => some (((x * 16 + y) * 16 + z) * 16 + w)
  | _, _, _, _ => none

/-- The code unit denoted by a single-character escape `\"`, `\\`, `\/`, `\b`,
`\f`, `\n`, `\r`, `\t`, given the character after the backslash. -/
def simpleEscape (e : Nat) : Option Nat :=
  if e = 34 then some 34
  else if e = 92 then some 92
  else if e = 47 then some 47
  else if e = 98 then some 8
  else if e = 102 then some 12
  else if e = 110 then some 10
  else if e = 114 then some 13
  else if e = 116 then some 9
  else none

/-- Reads a JSON string after its opening quote: the string value and the
input after the closing quote. Control characters below U+0020 must be
escaped. -/
def parseStringChars : List Nat → Option (JSString × List Nat)
  | [] => none
  | c :: rest =>
    if c = 34 then some ([], rest)
    else if c = 92 then
      match rest with
      | [] => none
      | e :: rest1 =>
        if e = 117 then
          match rest1 with
          | a :: b :: x :: d :: rest2 =>
            match hex4 a b x d with
            | some u => (parseStringChars rest2).map (fun r => (u :: r.1, r.2))
            | none => none
          | _ => none
        else
          match simpleEscape e with
          | some u => (parseStringChars rest1).map (fun r => (u :: r.1, r.2))
          | none => none
    else if c < 32 then none
    else (parseStringChars rest).map (fun r => (c :: r.1, r.2))

/-- The optional exponent part of a number; `acc` is the literal read so far. -/
def parseExponent (acc : JSString) (inp : List Nat) : Option (JSString × List Nat) :=
  match inp with
  | [] => some (acc, inp)
  | e :: r =>
    if e = 101 ∨ e = 69 then
      let sr : JSString × List Nat :=
        match r with
        | [] => ([], r)
        | g :: r1 => if g = 43 ∨ g = 45 then ([g], r1) else ([], r)
      let ds := sr.2.takeWhile isDigit
      if ds = [] then none
      else some (acc ++ e :: sr.1 ++ ds, sr.2.dropWhile isDigit)
    else some (acc, inp)

/-- The optional fraction part of a number, then the exponent. -/
def parseFraction (acc : JSString) (inp : List Nat) : Option (JSString × List Nat) :=
  match inp with
  | [] => parseExponent acc inp
  | p :: r =>
    if p = 46 then
      let ds := r.takeWhile isDigit
      if ds = [] then none
      else parseExponent (acc ++ 46 :: ds) (r.dropWhile isDigit)
    else parseExponent acc inp

/-- Reads a JSON number: `-? (0 | [1-9][0-9]*) (. [0-9]+)? ([eE] [+-]? [0-9]+)?`. -/
def parseNumber (inp : List Nat) : Option (JSString × List Nat) :=
  let sr : JSString × List Nat :=
    match inp with
    | [] => ([], inp)
    | m :: r => if m = 45 then ([45], r) else ([], inp)
  match sr.2 with
  | [] => none
  | d :: r1 =>
    if d = 48 then parseFraction (sr.1 ++ [48]) r1
    else if 49 ≤ d ∧ d ≤ 57 then
      parseFraction (sr.1 ++ d :: r1.takeWhile isDigit) (r1.dropWhile isDigit)
    else none

/-- Defines property `k` as `v` (`CreateDataProperty`): a later duplicate key
overwrites the value and keeps the place of the first. -/
def setProp (k : JSString) (v : JSValue) : List (JSString × JSValue) → List (JSString × JSValue)
  | [] => [(k, v)]
  | p :: ps => if p.1 = k then (p.1, v) :: ps else p :: setProp k v ps

mutual
/-- Reads one JSON value, with leading white space; `fuel` bounds the number
of nested calls. -/
def parseValue : Nat → List Nat → Option (JSValue × List Nat)
  | 0, _ => none
  | fuel + 1, inp =>
    match skipWs inp with
    | [] => none
    | c :: rest =>
      if c = 123 then
        match skipWs rest with
        | [] => none
        | d :: rest1 =>
          if d = 125 then some (JSValue.object [], rest1)
          else parseMembers fuel (d :: rest1) []
      else if c = 91 then
        match skipWs rest with
        | [] => none
        | d :: rest1 =>
          if d = 93 then some (JSValue.array [], rest1)
          else parseElements fuel (d :: rest1) []
      else if c = 34 then
        (parseStringChars rest).map (fun r => (JSValue.string r.1, r.2))
      else if c = 116 then
        match rest with
        | 114 :: 117 :: 101 :: rest1 => some (JSValue.bool true, rest1)
        | _ => none
      else if c = 102 then
        match rest with
        | 97 :: 108 :: 115 :: 101 :: rest1 => some (JSValue.bool false, rest1)
        | _ => none
      else if c = 110 then
        match rest with
        | 117 :: 108 :: 108 :: rest1 => some (JSValue.null, rest1)
        | _ => none
      else
        (parseNumber (c :: rest)).map (fun r => (JSValue.number r.1, r.2))
/-- Reads the elements of a non-empty array up to and including `]`; `acc`
holds the elements read so far. -/
def parseElements : Nat → List Nat → List JSValue → Option (JSValue × List Nat)
  | 0, _, _ => none
  | fuel + 1, inp, acc =>
    match parseValue fuel inp with
    | none => none
    | some (v, rest) =>
      match skipWs rest with
      | [] => none
      | d :: rest1 =>
        if d = 44 then parseElements fuel rest1 (acc ++ [v])
        else if d = 93 then some (JSValue.array (acc ++ [v]), rest1)
        else none
/-- Reads the members of a non-empty object up to and including `}`; `acc`
holds the properties defined so far. -/
def parseMembers : Nat → List Nat → List (JSString × JSValue) → Option (JSValue × List Nat)
  | 0, _, _ => none
  | fuel + 1, inp, acc =>
    match skipWs inp with
    | [] => none
    | q :: rest =>
      if q = 34 then
        match parseStringChars rest with
        | none => none
        | some (k, rest1) =>
          match skipWs rest1 with
          | [] => none
          | col :: rest2 =>
            if col = 58 then
              match parseValue fuel rest2 with
              | none => none
              | some (v, rest3) =>
                match skipWs rest3 with
                | [] => none
                | d :: rest4 =>
                  if d = 44 then parseMembers fuel rest4 (setProp k v acc)
                  else if d = 125 then some (JSValue.object (setProp k v acc), rest4)
                  else none
            else none
      else none
end

/-- `JSON.parse(text)`: the value denoted by the whole text, or a
`SyntaxError`. Every nested call consumes input, so `text.length + 1` units of
fuel are enough (`parseValue_fuel_stable`). -/
def JSON.parse (text : JSString) : Except JSError JSValue :=
  match parseValue (text.length + 1) text with
  | none => Except.error JSError.jsonSyntax
  | some (v, rest) =>
    if skipWs rest = [] then Except.ok v else Except.error JSError.jsonSyntax

/-! ## `JSON.stringify` on a task list -/

/-- Lower-case hexadecimal digit of a value below 16. -/
def hexDigit (n : Nat) : Nat := if n < 10 then 48 + n else 87 + n

/-- `UnicodeEscape`: `\u` followed by four lower-case hexadecimal digits. -/
def unicodeEscape (c : Nat) : JSString :=
  [92, 117, hexDigit (c / 4096 % 16), hexDigit (c / 256 % 16),
    hexDigit (c / 16 % 16), hexDigit (c % 16)]

/-- Is a leading (high) surrogate. -/
def isLeadingSurrogate (c : Nat) : Bool := 0xD800 ≤ c && c ≤ 0xDBFF

/-- Is a trailing (low) surrogate. -/
def isTrailingSurrogate (c : Nat) : Bool := 0xDC00 ≤ c && c ≤ 0xDFFF

/-- The body of `QuoteJSONString`: the two-character escapes of the table,
`\uXXXX` for other control characters and for unpaired surrogates, every other
code point (a surrogate pair included) as it is. -/
def quoteChars : List Nat → JSString
  | [] => []
  | c :: rest =>
    let tail := quoteChars rest
    if c = 8 then 92 :: 98 :: tail
    else if c = 9 then 92 :: 116 :: tail
    else if c = 10 then 92 :: 110 :: tail
    else if c = 12 then 92 :: 102 :: tail
    else if c = 13 then 92 :: 114 :: tail
    else if c = 34 then 92 :: 34 :: tail
    else if c = 92 then 92 :: 92 :: tail
    else if c < 32 then unicodeEscape c ++ tail
    else if isLeadingSurrogate c then
      match rest with
      | [] => unicodeEscape c
      | d :: rest1 =>
        if isTrailingSurrogate d then c :: d :: quoteChars rest1
        else unicodeEscape c ++ tail
    else if isTrailingSurrogate c then unicodeEscape c ++ tail
    else c :: tail

/-- `QuoteJSONString`. -/
def quoteJSONString (s : JSString) : JSString := 34 :: (quoteChars s ++ [34])

/-- The property name `id`. -/
def keyId : JSString := [105, 100]

/-- The property name `text`. -/
def keyText : JSString := [116, 101, 120, 116]

/-- The property name `completed`. -/
def keyCompleted : JSString := [99, 111, 109, 112, 108, 101, 116, 101, 100]

/-- Serialisation of a boolean: `true` or `false`. -/
def serializeBool (b : Bool) : JSString :=
  if b then [116, 114, 117, 101] else [102, 97, 108, 115, 101]

/-- `SerializeJSONObject` on a task record, without indentation: its three
properties in creation order, `{"id":…,"text":…,"completed":…}`. -/
def serializeTask (t : Task) : JSString :=
  [123] ++ quoteJSONString keyId ++ [58] ++ quoteJSONString t.id
    ++ [44] ++ quoteJSONString keyText ++ [58] ++ quoteJSONString t.text
    ++ [44] ++ quoteJSONString keyCompleted ++ [58] ++ serializeBool t.completed
    ++ [125]

/-- Joins the serialised elements with commas. -/
def joinComma : List JSString → JSString
  | [] => []
  | [x] => x
  | x :: y :: rest => x ++ 44 :: joinComma (y :: rest)

/-- `JSON.stringify(tasks)` on an array of task records (`SerializeJSONArray`
without indentation): `[]` for the empty array, else the elements between
brackets, separated by commas. -/
def JSON.stringify (tasks : List Task) : JSString :=
  [91] ++ joinComma (tasks.map serializeTask) ++ [93]

/-- The JavaScript value of a task record. -/
def Task.toJS (t : Task) : JSValue :=
  JSValue.object [(keyId, JSValue.string t.id), (keyText, JSValue.string t.text),
    (keyCompleted, JSValue.bool t.completed)]

/-- The JavaScript value of a task list: the array of its records. -/
def tasksToJS (tasks : List Task) : JSValue := JSValue.array (tasks.map Task.toJS)

/-- Reads a value as a task record of the typed state: an object whose
properties are exactly `id` (a string), `text` (a string) and `completed` (a
boolean), in that order, which is the shape `addTask` creates and
`JSON.stringify` writes. The code itself keeps whatever `JSON.parse` returns;
a record with other properties or another property order is serialised
differently by `JSON.stringify`, so the typed state does not stand for it. -/
def Task.ofJS : JSValue → Option Task
  | JSValue.object [(k1, JSValue.string i), (k2, JSValue.string t), (k3, JSValue.bool c)] =>
    if k1 = keyId ∧ k2 = keyText ∧ k3 = keyCompleted then
      some { id := i, text := t, completed := c }
    else none
  | _ => none

/-- Reads every value of a list as a task record. -/
def tasksOfElems : List JSValue → Option (List Task)
  | [] => some []
  | v :: vs =>
    match Task.ofJS v, tasksOfElems vs with
    | some t, some ts => some (t :: ts)
    | _, _ => none

/-- Reads a value as a task list: an array of task records. -/
def tasksOfJS : JSValue → Option (List Task)
  | JSValue.array elems => tasksOfElems elems
  | _ => none

/-! ## The component state and its handlers -/

/-- State of the `App` component together with its surroundings: the two
pieces of React state `tasks` and `newTask`, the contents of `AsyncStorage`,
and the platform calls issued so far (oldest first). -/
structure App where
  tasks : List Task
  newTask : JSString
  storage : Storage
  effects : List Effect

/-- The component at its first render, `useState([])` and `useState('')`, over
a given storage, before any effect has run (`startup` runs the effects). -/
def App.initial (storage : Storage) : App :=
  { tasks := [], newTask := [], storage := storage, effects := [] }

/-- `onChangeText={setNewTask}`: the text field now holds `text`. -/
def setNewTask (text : JSString) (a : App) : App := { a with newTask := text }

/-- The effect `saveTasks` with dependency `[tasks]`: writes
`JSON.stringify(tasks)` under `'tasks'`. -/
def saveTasks (a : App) : App :=
  { a with storage := a.storage.setItem tasksKey (JSON.stringify a.tasks) }

/-- `setTasks(updater)`: the new array replaces `tasks`; being a new array it
changes the dependency `[tasks]`, so `saveTasks` runs after the update. -/
def setTasks (updater : List Task → List Task) (a : App) : App :=
  saveTasks { a with tasks := updater a.tasks }

/-- The handler `addTask`; `now` is the value read from `Date.now()`. -/
def addTask (now : Int) (a : App) : App :=
  if (trim a.newTask).length > 0 then
    let a1 := setTasks (fun prevTasks =>
      prevTasks ++ [{ id := numberToString now, text := trim a.newTask, completed := false }]) a
    { a1 with newTask := [], effects := a1.effects ++ [Effect.keyboardDismiss] }
  else
    { a with effects := a.effects ++ [Effect.alert "Atenção" "Por favor, digite uma tarefa."] }

/-- The handler `toggleTaskCompleted`. -/
def toggleTaskCompleted (id : JSString) (a : App) : App :=
  setTasks (fun prevTasks =>
    prevTasks.map (fun task =>
      if task.id = id then { task with completed := !task.completed } else task)) a

/-- The button the user presses in the confirmation alert of `deleteTask`
(dismissing the alert counts as `cancelar`: no handler runs). -/
inductive DeleteChoice where
  | cancelar
  | excluir
  deriving DecidableEq, Repr

/-- The handler `deleteTask`: shows the confirmation alert; only the button
`Excluir` removes the tasks whose `id` is the given one. -/
def deleteTask (id : JSString) (choice : DeleteChoice) (a : App) : App :=
  let a1 := { a with effects := a.effects ++
    [Effect.confirm "Confirmar exclusão" "Tem certeza que deseja excluir esta tarefa?"
      ["Cancelar", "Excluir"]] }
  match choice with
  | DeleteChoice.cancelar => a1
  | DeleteChoice.excluir =>
    setTasks (fun prevTasks => prevTasks.filter (fun task => task.id != id)) a1

/-- Outcome of `loadTasks`. The state `tasks` is typed as a list of task
records; a stored text that parses to any other value is reported apart. -/
inductive LoadResult where
  /-- The state after `loadTasks`. -/
  | state (a : App)
  /-- The call `setTasks(v)` was made with a value `v` that is not an array of
  task records of the typed state: `tasks` now holds `v`. -/
  | untyped (v : JSValue)

/-- The `try` block of `loadTasks` from the point where `await getItem('tasks')`
has delivered `savedTasks`, in the state `a` the component is in by then;
`Except.error` is a thrown exception. A `null` or `''` is falsy, so `setTasks`
is not called; any other text goes through `JSON.parse`, and `setTasks` is
called with the value whatever it is. -/
def loadTasksTry (savedTasks : Option JSString) (a : App) : Except JSError LoadResult :=
  match savedTasks with
  | none => Except.ok (LoadResult.state a)
  | some text =>
    if text = [] then Except.ok (LoadResult.state a)
    else
      match JSON.parse text with
      | Except.error e => Except.error e
      | Except.ok v =>
        match tasksOfJS v with
        | some l => Except.ok (LoadResult.state (setTasks (fun _ => l) a))
        | none => Except.ok (LoadResult.untyped v)

/-- The rest of `loadTasks` after `await getItem('tasks')`: the `try` block,
and the `catch` clause that only logs with `console.error`. -/
def loadTasksResume (savedTasks : Option JSString) (a : App) : Except JSError LoadResult :=
  match loadTasksTry savedTasks a with
  | Except.ok r => Except.ok r
  | Except.error _ =>
    Except.ok (LoadResult.state
      { a with effects := a.effects ++ [Effect.consoleError "Erro ao carregar tarefas:"] })

/-- The effect `loadTasks` run with nothing happening between its read of
`'tasks'` and its resumption. -/
def loadTasks (a : App) : Except JSError LoadResult :=
  loadTasksResume (a.storage.getItem tasksKey) a

/-- Startup of the component over a given storage. After the first render the
two effects run in the order they are declared: `loadTasks` issues its
`getItem('tasks')`, then `saveTasks` writes `JSON.stringify([])`, the text
`[]`, under `'tasks'`; `loadTasks` resumes afterwards with the value its read
delivered, the one stored before the write. -/
def startup (storage : Storage) : Except JSError LoadResult :=
  loadTasksResume (storage.getItem tasksKey) (saveTasks (App.initial storage))

/-! ## Sample states -/

/-- An empty storage. -/
def emptyStorage : Storage := fun _ => none

/-- A fresh component over an empty storage whose text field holds ` X `. -/
def sampleTyped : App := setNewTask [32, 88, 32] (App.initial emptyStorage)

/-- A fresh component over an empty storage whose text field holds three
spaces. -/
def sampleBlank : App := setNewTask [32, 32, 32] (App.initial emptyStorage)

/-- The two tasks `{id:"1",text:"A",completed:false}` and
`{id:"2",text:"B",completed:true}`. -/
def sampleTasks : List Task :=
  [{ id := [49], text := [65], completed := false },
   { id := [50], text := [66], completed := true }]

/-- A component holding `sampleTasks` over an empty storage. -/
def sampleLoaded : App :=
  { tasks := sampleTasks, newTask := [], storage := emptyStorage, effects := [] }

/-- A storage holding the malformed text `{` under `'tasks'`. -/
def corruptStorage : Storage := emptyStorage.setItem tasksKey [123]

/-- A storage holding the text `5` under `'tasks'`: valid JSON that is not a
task list. -/
def numberStorage : Storage := emptyStorage.setItem tasksKey [53]


/-! ## Supporting facts -/

theorem trimEnd_eq_nil_iff (s : JSString) :
    trimEnd s = [] ↔ ∀ c ∈ s, isWhiteSpace c = true := by
  simp [trimEnd, List.dropWhile_eq_nil_iff]

theorem trim_eq_nil_iff (s : JSString) :
    trim s = [] ↔ ∀ c ∈ s, isWhiteSpace c = true := by
  unfold trim
  rw [trimEnd_eq_nil_iff]
  constructor
  · intro h
    unfold trimStart at h
    induction s with
    | nil => simp
    | cons x xs ih =>
      by_cases hx : isWhiteSpace x = true
      · rw [List.dropWhile_cons_of_pos hx] at h
        intro c hc
        rcases List.mem_cons.1 hc with rfl | hc
        · exact hx
        · exact ih h c hc
      · rw [List.dropWhile_cons_of_neg hx] at h
        exact absurd (h x (List.mem_cons_self _ _)) hx
  · intro h c hc
    exact h c ((List.dropWhile_suffix _).subset hc)

/-! ## Handlers: theorems -/

/-- C1. With a text whose trimmed form is non-empty, `addTask` yields a list
one longer than before, whose first elements are exactly the previous list in
order and whose last element has the trimmed text, `completed = false` and the
timestamp rendered as a string for `id`. -/
theorem addTask_appends (a : App) (now : Int) (h : 0 < (trim a.newTask).length) :
    (addTask now a).tasks.length = a.tasks.length + 1 ∧
    (addTask now a).tasks.take a.tasks.length = a.tasks ∧
    ∃ t, (addTask now a).tasks.getLast? = some t ∧ t.text = trim a.newTask ∧
      t.completed = false ∧ t.id = numberToString now := by
  have hgt : (trim a.newTask).length > 0 := h
  simp [addTask, hgt, setTasks, saveTasks]

theorem addTask_appends_witness :
    0 < (trim sampleTyped.newTask).length ∧
    ((addTask 5 sampleTyped).tasks.length = sampleTyped.tasks.length + 1 ∧
      (addTask 5 sampleTyped).tasks.take sampleTyped.tasks.length = sampleTyped.tasks ∧
      ∃ t, (addTask 5 sampleTyped).tasks.getLast? = some t ∧
        t.text = trim sampleTyped.newTask ∧ t.completed = false ∧
        t.id = numberToString 5) :=
  ⟨by decide, addTask_appends sampleTyped 5 (by decide)⟩

/-- C2. With a text that is empty or only white space (its trimmed form has
length 0), `addTask` is rejected: it only shows the alert asking for a task,
and the task list, the text field and the storage stay as they were. -/
theorem addTask_blank_rejected (a : App) (now : Int) (h : (trim a.newTask).length = 0) :
    (addTask now a).tasks = a.tasks ∧
    (addTask now a).tasks.length = a.tasks.length ∧
    (addTask now a).newTask = a.newTask ∧
    (addTask now a).storage = a.storage ∧
    (addTask now a).effects =
      a.effects ++ [Effect.alert "Atenção" "Por favor, digite uma tarefa."] := by
  simp [addTask, h]

theorem addTask_blank_rejected_witness :
    (trim sampleBlank.newTask).length = 0 ∧
    ((addTask 5 sampleBlank).tasks = sampleBlank.tasks ∧
      (addTask 5 sampleBlank).tasks.length = sampleBlank.tasks.length ∧
      (addTask 5 sampleBlank).newTask = sampleBlank.newTask ∧
      (addTask 5 sampleBlank).storage = sampleBlank.storage ∧
      (addTask 5 sampleBlank).effects =
        sampleBlank.effects ++ [Effect.alert "Atenção" "Por favor, digite uma tarefa."]) :=
  ⟨by decide, addTask_blank_rejected sampleBlank 5 (by decide)⟩

/-- C3. `toggleTaskCompleted id` keeps the length and the order of the list;
at every position a task whose `id` is the given one becomes the same task
with `completed` negated (`id` and `text` unchanged), and any other task stays
as it was; when no task has that `id` the list is unchanged. -/
theorem toggleTaskCompleted_spec (a : App) (id : JSString) :
    (toggleTaskCompleted id a).tasks.length = a.tasks.length ∧
    (∀ (i : Nat) (t : Task), a.tasks[i]? = some t →
      (t.id = id → (toggleTaskCompleted id a).tasks[i]? =
        some { id := t.id, text := t.text, completed := !t.completed }) ∧
      (t.id ≠ id → (toggleTaskCompleted id a).tasks[i]? = some t)) ∧
    ((∀ t ∈ a.tasks, t.id ≠ id) → (toggleTaskCompleted id a).tasks = a.tasks) := by
  refine ⟨by simp [toggleTaskCompleted, setTasks, saveTasks], ?_, ?_⟩
  · intro i t ht
    constructor
    · intro hid
      simp [toggleTaskCompleted, setTasks, saveTasks, List.getElem?_map, ht, hid]
    · intro hid
      simp [toggleTaskCompleted, setTasks, saveTasks, List.getElem?_map, ht, hid]
  · intro hno
    simp only [toggleTaskCompleted, setTasks, saveTasks]
    conv_rhs => rw [← List.map_id a.tasks]
    apply List.map_congr_left
    intro t ht
    simp [hno t ht]

theorem toggleTaskCompleted_spec_witness :
    (sampleLoaded.tasks[0]? = some { id := [49], text := [65], completed := false } ∧
      (toggleTaskCompleted [49] sampleLoaded).tasks[0]?
        = some { id := [49], text := [65], completed := true }) ∧
    (sampleLoaded.tasks[1]? = some { id := [50], text := [66], completed := true } ∧
      (toggleTaskCompleted [49] sampleLoaded).tasks[1]?
        = some { id := [50], text := [66], completed := true }) ∧
    ((∀ t ∈ sampleLoaded.tasks, t.id ≠ [51]) ∧
      (toggleTaskCompleted [51] sampleLoaded).tasks = sampleLoaded.tasks) :=
  ⟨⟨rfl, ((toggleTaskCompleted_spec sampleLoaded [49]).2.1 0 _ rfl).1 rfl⟩,
    ⟨rfl, ((toggleTaskCompleted_spec sampleLoaded [49]).2.1 1 _ rfl).2 (by decide)⟩,
    ⟨by decide, (toggleTaskCompleted_spec sampleLoaded [51]).2.2 (by decide)⟩⟩

/-- C4. A confirmed `deleteTask id` keeps exactly the tasks whose `id` differs
from the given one, unmodified and in their relative order: the result is a
sublist of the old list, it contains a task exactly when the old list does and
its `id` differs, every kept task occurs as often as before, no task with the
given `id` remains, and without such a task the list is unchanged. -/
theorem deleteTask_spec (a : App) (id : JSString) :
    (deleteTask id DeleteChoice.excluir a).tasks.Sublist a.tasks ∧
    (∀ t, t ∈ (deleteTask id DeleteChoice.excluir a).tasks ↔ t ∈ a.tasks ∧ t.id ≠ id) ∧
    (∀ t, t.id ≠ id →
      (deleteTask id DeleteChoice.excluir a).tasks.count t = a.tasks.count t) ∧
    (∀ t ∈ (deleteTask id DeleteChoice.excluir a).tasks, t.id ≠ id) ∧
    ((∀ t ∈ a.tasks, t.id ≠ id) → (deleteTask id DeleteChoice.excluir a).tasks = a.tasks) := by
  simp only [deleteTask, setTasks, saveTasks]
  refine ⟨List.filter_sublist _, ?_, ?_, ?_, ?_⟩
  · intro t
    simp [List.mem_filter]
  · intro t ht
    rw [List.count_filter]
    simpa using ht
  · intro t ht
    simpa using (List.mem_filter.1 ht).2
  · intro hno
    apply List.filter_eq_self.2
    intro t ht
    simpa using hno t ht

theorem deleteTask_spec_witness :
    (({ id := [50], text := [66], completed := true } : Task).id ≠ [49] ∧
      (deleteTask [49] DeleteChoice.excluir sampleLoaded).tasks.count
          { id := [50], text := [66], completed := true }
        = sampleLoaded.tasks.count { id := [50], text := [66], completed := true }) ∧
    ((∀ t ∈ sampleLoaded.tasks, t.id ≠ [51]) ∧
      (deleteTask [51] DeleteChoice.excluir sampleLoaded).tasks = sampleLoaded.tasks) :=
  ⟨⟨by decide, (deleteTask_spec sampleLoaded [49]).2.2.1 _ (by decide)⟩,
    ⟨by decide, (deleteTask_spec sampleLoaded [51]).2.2.2.2 (by decide)⟩⟩

/-- C9. Applying `toggleTaskCompleted id` twice in a row gives back the whole
task list, so `completed` of every task, the one with that `id` included, is
restored. -/
theorem toggleTaskCompleted_twice (a : App) (id : JSString) :
    (toggleTaskCompleted id (toggleTaskCompleted id a)).tasks = a.tasks ∧
    (toggleTaskCompleted id (toggleTaskCompleted id a)).tasks.map Task.completed
      = a.tasks.map Task.completed := by
  have key : (toggleTaskCompleted id (toggleTaskCompleted id a)).tasks = a.tasks := by
    simp only [toggleTaskCompleted, setTasks, saveTasks, List.map_map]
    conv_rhs => rw [← List.map_id a.tasks]
    apply List.map_congr_left
    intro t _
    by_cases h : t.id = id
    · subst h
      simp
    · simp [h]
  exact ⟨key, by rw [key]⟩

/-- C10. A confirmed `deleteTask id` applied twice in a row leaves the same
task list as applied once, whether or not the `id` was present. -/
theorem deleteTask_twice (a : App) (id : JSString) :
    (deleteTask id DeleteChoice.excluir (deleteTask id DeleteChoice.excluir a)).tasks
      = (deleteTask id DeleteChoice.excluir a).tasks := by
  simp [deleteTask, setTasks, saveTasks, List.filter_filter]


/-! ## `JSON.parse` after `JSON.stringify` -/

theorem hexVal_hexDigit (n : Nat) (h : n < 16) : hexVal (hexDigit n) = some n := by
  interval_cases n <;> rfl

theorem hex4_unicodeEscape (c : Nat) (h : c < 65536) :
    hex4 (hexDigit (c / 4096 % 16)) (hexDigit (c / 256 % 16)) (hexDigit (c / 16 % 16))
      (hexDigit (c % 16)) = some c := by
  have h1 := hexVal_hexDigit (c / 4096 % 16) (Nat.mod_lt _ (by norm_num))
  have h2 := hexVal_hexDigit (c / 256 % 16) (Nat.mod_lt _ (by norm_num))
  have h3 := hexVal_hexDigit (c / 16 % 16) (Nat.mod_lt _ (by norm_num))
  have h4 := hexVal_hexDigit (c % 16) (Nat.mod_lt _ (by norm_num))
  simp only [hex4, h1, h2, h3, h4, Option.some.injEq]
  omega

theorem parseStringChars_quote (rest : List Nat) :
    parseStringChars (34 :: rest) = some ([], rest) := by
  rw [parseStringChars.eq_def]
  simp

theorem parseStringChars_unicodeEscape (c : Nat) (h : c < 65536) (inp : List Nat) :
    parseStringChars (unicodeEscape c ++ inp)
      = (parseStringChars inp).map (fun r => (c :: r.1, r.2)) := by
  rw [parseStringChars.eq_def]
  simp [unicodeEscape, hex4_unicodeEscape c h]

theorem parseStringChars_simpleEscape (e u : Nat) (h : simpleEscape e = some u)
    (inp : List Nat) :
    parseStringChars (92 :: e :: inp)
      = (parseStringChars inp).map (fun r => (u :: r.1, r.2)) := by
  have he : e ≠ 117 := by
    rintro rfl
    simp [simpleEscape] at h
  rw [parseStringChars.eq_def]
  simp [he, h]

theorem parseStringChars_raw (c : Nat) (h1 : c ≠ 34) (h2 : c ≠ 92) (h3 : ¬ c < 32)
    (inp : List Nat) :
    parseStringChars (c :: inp) = (parseStringChars inp).map (fun r => (c :: r.1, r.2)) := by
  rw [parseStringChars.eq_def]
  simp [h1, h2, h3]

theorem quoteChars_cons (c : Nat) (rest : List Nat) :
    quoteChars (c :: rest) =
      if c = 8 then 92 :: 98 :: quoteChars rest
      else if c = 9 then 92 :: 116 :: quoteChars rest
      else if c = 10 then 92 :: 110 :: quoteChars rest
      else if c = 12 then 92 :: 102 :: quoteChars rest
      else if c = 13 then 92 :: 114 :: quoteChars rest
      else if c = 34 then 92 :: 34 :: quoteChars rest
      else if c = 92 then 92 :: 92 :: quoteChars rest
      else if c < 32 then unicodeEscape c ++ quoteChars rest
      else if isLeadingSurrogate c then
        match rest with
        | [] => unicodeEscape c
        | d :: rest1 =>
          if isTrailingSurrogate d then c :: d :: quoteChars rest1
          else unicodeEscape c ++ quoteChars rest
      else if isTrailingSurrogate c then unicodeEscape c ++ quoteChars rest
      else c :: quoteChars rest := by
  rw [quoteChars.eq_def]

theorem parseStringChars_quoteChars (s : JSString) (rest : List Nat) :
    parseStringChars (quoteChars s ++ 34 :: rest) = some (s, rest) := by
  induction' hn : s.length using Nat.strong_induction_on with n ih generalizing s
  cases s with
  | nil => simp [quoteChars, parseStringChars_quote]
  | cons c tl =>
    have ihtl := ih tl.length (by simp [← hn]) tl rfl
    rw [quoteChars_cons]
    by_cases h8 : c = 8
    · rw [if_pos h8, h8, List.cons_append, List.cons_append,
        parseStringChars_simpleEscape 98 8 rfl, ihtl]
      rfl
    rw [if_neg h8]
    by_cases h9 : c = 9
    · rw [if_pos h9, h9, List.cons_append, List.cons_append,
        parseStringChars_simpleEscape 116 9 rfl, ihtl]
      rfl
    rw [if_neg h9]
    by_cases h10 : c = 10
    · rw [if_pos h10, h10, List.cons_append, List.cons_append,
        parseStringChars_simpleEscape 110 10 rfl, ihtl]
      rfl
    rw [if_neg h10]
    by_cases h12 : c = 12
    · rw [if_pos h12, h12, List.cons_append, List.cons_append,
        parseStringChars_simpleEscape 102 12 rfl, ihtl]
      rfl
    rw [if_neg h12]
    by_cases h13 : c = 13
    · rw [if_pos h13, h13, List.cons_append, List.cons_append,
        parseStringChars_simpleEscape 114 13 rfl, ihtl]
      rfl
    rw [if_neg h13]
    by_cases h34 : c = 34
    · rw [if_pos h34, h34, List.cons_append, List.cons_append,
        parseStringChars_simpleEscape 34 34 rfl, ihtl]
      rfl
    rw [if_neg h34]
    by_cases h92 : c = 92
    · rw [if_pos h92, h92, List.cons_append, List.cons_append,
        parseStringChars_simpleEscape 92 92 rfl, ihtl]
      rfl
    rw [if_neg h92]
    by_cases h32 : c < 32
    · rw [if_pos h32, List.append_assoc, parseStringChars_unicodeEscape c (by omega), ihtl]
      rfl
    rw [if_neg h32]
    by_cases hlead : isLeadingSurrogate c = true
    · rw [if_pos hlead]
      simp only [isLeadingSurrogate, Bool.and_eq_true, decide_eq_true_eq] at hlead
      cases tl with
      | nil =>
        show parseStringChars (unicodeEscape c ++ 34 :: rest) = some ([c], rest)
        rw [parseStringChars_unicodeEscape c (by omega), parseStringChars_quote]
        rfl
      | cons d tl2 =>
        show parseStringChars ((if isTrailingSurrogate d = true then c :: d :: quoteChars tl2
          else unicodeEscape c ++ quoteChars (d :: tl2)) ++ 34 :: rest) = some (c :: d :: tl2, rest)
        by_cases hd : isTrailingSurrogate d = true
        · rw [if_pos hd]
          simp only [isTrailingSurrogate, Bool.and_eq_true, decide_eq_true_eq] at hd
          have ih2 := ih tl2.length (by simp [← hn]; omega) tl2 rfl
          rw [List.cons_append, List.cons_append,
            parseStringChars_raw c (by omega) (by omega) (by omega),
            parseStringChars_raw d (by omega) (by omega) (by omega), ih2]
          rfl
        · rw [if_neg hd, List.append_assoc, parseStringChars_unicodeEscape c (by omega), ihtl]
          rfl
    rw [if_neg hlead]
    by_cases htrail : isTrailingSurrogate c = true
    · rw [if_pos htrail]
      simp only [isTrailingSurrogate, Bool.and_eq_true, decide_eq_true_eq] at htrail
      rw [List.append_assoc, parseStringChars_unicodeEscape c (by omega), ihtl]
      rfl
    rw [if_neg htrail, List.cons_append, parseStringChars_raw c h34 h92 h32, ihtl]
    rfl


theorem skipWs_cons_of_not_ws (c : Nat) (r : List Nat) (h : isJSONWhiteSpace c = false) :
    skipWs (c :: r) = c :: r := by
  simp [skipWs, h]

theorem quoteJSONString_append (s : JSString) (rest : List Nat) :
    quoteJSONString s ++ rest = 34 :: (quoteChars s ++ 34 :: rest) := by
  simp [quoteJSONString]

theorem parseValue_string (n : Nat) (s : JSString) (rest : List Nat) :
    parseValue (n + 1) (quoteJSONString s ++ rest) = some (JSValue.string s, rest) := by
  rw [quoteJSONString_append, parseValue, skipWs_cons_of_not_ws 34 _ rfl]
  simp [parseStringChars_quoteChars]

theorem parseValue_bool (n : Nat) (b : Bool) (rest : List Nat) :
    parseValue (n + 1) (serializeBool b ++ rest) = some (JSValue.bool b, rest) := by
  cases b
  · rw [parseValue]
    simp [serializeBool, skipWs_cons_of_not_ws 102 _ rfl]
  · rw [parseValue]
    simp [serializeBool, skipWs_cons_of_not_ws 116 _ rfl]

theorem parseValue_object (n : Nat) (k : JSString) (inp : List Nat) :
    parseValue (n + 1) (123 :: (quoteJSONString k ++ inp))
      = parseMembers n (quoteJSONString k ++ inp) [] := by
  rw [quoteJSONString_append, parseValue, skipWs_cons_of_not_ws 123 _ rfl]
  simp [skipWs_cons_of_not_ws 34 _ rfl]

theorem parseMembers_member (n : Nat) (k : JSString) (inp : List Nat) (v : JSValue) (d : Nat)
    (rest : List Nat) (acc : List (JSString × JSValue))
    (hv : parseValue (n + 1) inp = some (v, d :: rest)) (hd : isJSONWhiteSpace d = false) :
    parseMembers (n + 2) (quoteJSONString k ++ 58 :: inp) acc
      = if d = 44 then parseMembers (n + 1) rest (setProp k v acc)
        else if d = 125 then some (JSValue.object (setProp k v acc), rest)
        else none := by
  rw [quoteJSONString_append, parseMembers, skipWs_cons_of_not_ws 34 _ rfl]
  simp [parseStringChars_quoteChars, skipWs_cons_of_not_ws 58 _ rfl, hv,
    skipWs_cons_of_not_ws d _ hd]

theorem serializeTask_append (t : Task) (rest : List Nat) :
    serializeTask t ++ rest
      = 123 :: (quoteJSONString keyId ++ 58 :: (quoteJSONString t.id ++ 44 ::
          (quoteJSONString keyText ++ 58 :: (quoteJSONString t.text ++ 44 ::
            (quoteJSONString keyCompleted ++ 58 ::
              (serializeBool t.completed ++ 125 :: rest)))))) := by
  simp [serializeTask, List.append_assoc]

theorem parseValue_serializeTask (n : Nat) (t : Task) (rest : List Nat) :
    parseValue (n + 5) (serializeTask t ++ rest) = some (t.toJS, rest) := by
  rw [serializeTask_append, parseValue_object,
    parseMembers_member (n + 2) keyId _ _ 44 _ [] (parseValue_string _ _ _) rfl,
    if_pos rfl,
    parseMembers_member (n + 1) keyText _ _ 44 _ _ (parseValue_string _ _ _) rfl,
    if_pos rfl,
    parseMembers_member n keyCompleted _ _ 125 _ _ (parseValue_bool _ _ _) rfl]
  simp [setProp, keyId, keyText, keyCompleted, Task.toJS]

theorem parseElements_serializeTask (ts : List Task) :
    ∀ (t : Task) (acc : List JSValue) (n : Nat) (rest : List Nat),
      parseElements (n + ts.length + 6)
          (joinComma ((t :: ts).map serializeTask) ++ 93 :: rest) acc
        = some (JSValue.array (acc ++ (t :: ts).map Task.toJS), rest) := by
  induction ts with
  | nil =>
    intro t acc n rest
    show parseElements (n + 5 + 1) (serializeTask t ++ 93 :: rest) acc = _
    rw [parseElements, parseValue_serializeTask]
    simp [skipWs_cons_of_not_ws 93 _ rfl]
  | cons t2 ts ih =>
    intro t acc n rest
    show parseElements (n + ts.length + 1 + 5 + 1)
      ((serializeTask t ++ 44 :: joinComma ((t2 :: ts).map serializeTask)) ++ 93 :: rest) acc = _
    rw [parseElements, List.append_assoc, parseValue_serializeTask]
    simp only [List.cons_append, skipWs_cons_of_not_ws 44 _ rfl]
    have h := ih t2 (acc ++ [t.toJS]) n rest
    simp only [if_pos, List.map_cons, List.append_assoc, List.singleton_append] at h ⊢
    exact h


theorem serializeTask_length (t : Task) : 6 ≤ (serializeTask t).length := by
  simp [serializeTask, quoteJSONString]
  omega

theorem joinComma_serializeTask_length (ts : List Task) (t : Task) :
    ts.length + 6 ≤ (joinComma ((t :: ts).map serializeTask)).length := by
  induction ts generalizing t with
  | nil => simpa [joinComma] using serializeTask_length t
  | cons t2 ts ih =>
    have h1 := ih t2
    have h2 := serializeTask_length t
    simp only [List.map_cons, joinComma, List.length_append, List.length_cons] at h1 ⊢
    omega

theorem joinComma_serializeTask_head (ts : List Task) (t : Task) :
    ∃ tail, joinComma ((t :: ts).map serializeTask) = 123 :: tail := by
  cases ts with
  | nil => exact ⟨_, by simp [joinComma, serializeTask]; rfl⟩
  | cons t2 ts => exact ⟨_, by simp [joinComma, serializeTask]; rfl⟩

theorem parseValue_array (n : Nat) (tail rest : List Nat) :
    parseValue (n + 1) (91 :: 123 :: (tail ++ rest))
      = parseElements n (123 :: (tail ++ rest)) [] := by
  rw [parseValue, skipWs_cons_of_not_ws 91 _ rfl]
  simp [skipWs_cons_of_not_ws 123 _ rfl]

theorem parse_stringify (tasks : List Task) :
    JSON.parse (JSON.stringify tasks) = Except.ok (tasksToJS tasks) := by
  cases tasks with
  | nil => rfl
  | cons t ts =>
    have hlen := joinComma_serializeTask_length ts t
    obtain ⟨n, hn⟩ : ∃ n, (JSON.stringify (t :: ts)).length = n + ts.length + 6 :=
      ⟨(JSON.stringify (t :: ts)).length - (ts.length + 6), by
        simp only [JSON.stringify, List.length_append, List.length_cons, List.length_nil,
          List.length_singleton]
        omega⟩
    obtain ⟨tail, htail⟩ := joinComma_serializeTask_head ts t
    have hparse : parseValue ((JSON.stringify (t :: ts)).length + 1) (JSON.stringify (t :: ts))
        = some (tasksToJS (t :: ts), []) := by
      rw [hn]
      have h := parseElements_serializeTask ts t [] n []
      rw [htail] at h
      simp only [JSON.stringify, htail, List.singleton_append, List.cons_append,
        List.nil_append] at h ⊢
      rw [parseValue_array, h]
      simp [tasksToJS]
    simp [JSON.parse, hparse, skipWs]

theorem Task.ofJS_toJS (t : Task) : Task.ofJS t.toJS = some t := by
  simp [Task.ofJS, Task.toJS]

theorem tasksOfJS_tasksToJS (tasks : List Task) : tasksOfJS (tasksToJS tasks) = some tasks := by
  simp only [tasksOfJS, tasksToJS]
  induction tasks with
  | nil => rfl
  | cons t ts ih => simp [tasksOfElems, Task.ofJS_toJS, ih]


/-! ## The fuel of `JSON.parse` is enough -/

theorem skipWs_length_le (inp : List Nat) : (skipWs inp).length ≤ inp.length := by
  induction inp with
  | nil => simp [skipWs]
  | cons c r ih =>
    rw [skipWs]
    split_ifs
    · exact Nat.le_succ_of_le ih
    · exact Nat.le_refl _

theorem parseStringChars_length (inp : List Nat) :
    ∀ (s : JSString) (rest : List Nat), parseStringChars inp = some (s, rest) →
      rest.length < inp.length := by
  induction' hn : inp.length using Nat.strong_induction_on with n ih generalizing inp
  intro s rest h
  subst hn
  rw [parseStringChars.eq_def] at h
  split at h
  · cases h
  · rename_i c r
    split at h
    · cases h
      simp
    · split at h
      · split at h
        · cases h
        · rename_i e r1
          split at h
          · split at h
            · rename_i a b x d r2
              split at h
              · rename_i u hu
                cases hp : parseStringChars r2 with
                | none => simp [hp] at h
                | some p =>
                  have := ih r2.length (by simp; omega) r2 rfl p.1 p.2 hp
                  simp [hp] at h
                  rw [← h.2]
                  simp
                  omega
              · cases h
            · cases h
          · split at h
            · cases hp : parseStringChars r1 with
              | none => simp [hp] at h
              | some p =>
                have := ih r1.length (by simp; omega) r1 rfl p.1 p.2 hp
                simp [hp] at h
                rw [← h.2]
                simp
                omega
            · cases h
      · split at h
        · cases h
        · cases hp : parseStringChars r with
          | none => simp [hp] at h
          | some p =>
            have := ih r.length (by simp) r rfl p.1 p.2 hp
            simp [hp] at h
            rw [← h.2]
            simp
            omega


theorem dropWhile_isDigit_length_le (l : List Nat) :
    (l.dropWhile isDigit).length ≤ l.length :=
  (List.dropWhile_suffix isDigit).length_le

theorem parseExponent_length (acc : JSString) (inp : List Nat) (l : JSString)
    (rest : List Nat) (h : parseExponent acc inp = some (l, rest)) :
    rest.length ≤ inp.length := by
  unfold parseExponent at h
  split at h
  · cases h
    simp
  · rename_i e r
    split at h
    · simp only at h
      split at h
      · cases h
      · cases h
        cases r with
        | nil => simp
        | cons g r1 =>
          simp only
          split_ifs
          · have := dropWhile_isDigit_length_le r1
            simp only [List.length_cons]
            omega
          · have := dropWhile_isDigit_length_le (g :: r1)
            simp only [List.length_cons] at this ⊢
            omega
    · cases h
      simp

theorem parseFraction_length (acc : JSString) (inp : List Nat) (l : JSString)
    (rest : List Nat) (h : parseFraction acc inp = some (l, rest)) :
    rest.length ≤ inp.length := by
  unfold parseFraction at h
  split at h
  · exact parseExponent_length _ _ _ _ h
  · rename_i p r
    split at h
    · simp only at h
      split at h
      · cases h
      · have h1 := parseExponent_length _ _ _ _ h
        have h2 := dropWhile_isDigit_length_le r
        simp only [List.length_cons]
        omega
    · exact parseExponent_length _ _ _ _ h

theorem parseNumber_length (inp : List Nat) (l : JSString) (rest : List Nat)
    (h : parseNumber inp = some (l, rest)) : rest.length < inp.length := by
  cases inp with
  | nil => simp [parseNumber] at h
  | cons m r =>
    by_cases hm : m = 45
    · subst hm
      simp only [parseNumber, if_true] at h
      cases r with
      | nil => simp at h
      | cons d r1 =>
        simp only at h
        split at h
        · have := parseFraction_length _ _ _ _ h
          simp only [List.length_cons]
          omega
        · split at h
          · have h1 := parseFraction_length _ _ _ _ h
            have h2 := dropWhile_isDigit_length_le r1
            simp only [List.length_cons]
            omega
          · cases h
    · simp only [parseNumber, hm, if_false] at h
      split at h
      · have := parseFraction_length _ _ _ _ h
        simp only [List.length_cons]
        omega
      · split at h
        · have h1 := parseFraction_length _ _ _ _ h
          have h2 := dropWhile_isDigit_length_le r
          simp only [List.length_cons]
          omega
        · cases h


theorem parse_fuel_enough (F : Nat) :
    (∀ inp v rest, parseValue F inp = some (v, rest) →
      rest.length < inp.length ∧
        ∀ G, inp.length - rest.length ≤ G → parseValue G inp = some (v, rest)) ∧
    (∀ inp acc v rest, parseElements F inp acc = some (v, rest) →
      rest.length < inp.length ∧
        ∀ G, inp.length - rest.length ≤ G → parseElements G inp acc = some (v, rest)) ∧
    (∀ inp acc v rest, parseMembers F inp acc = some (v, rest) →
      rest.length < inp.length ∧
        ∀ G, inp.length - rest.length ≤ G → parseMembers G inp acc = some (v, rest)) := by
  induction F with
  | zero =>
    refine ⟨?_, ?_, ?_⟩
    · intro inp v rest h
      simp [parseValue] at h
    · intro inp acc v rest h
      simp [parseElements] at h
    · intro inp acc v rest h
      simp [parseMembers] at h
  | succ f ih =>
    obtain ⟨ihV, ihE, ihM⟩ := ih
    refine ⟨?_, ?_, ?_⟩
    · intro inp v rest h
      rw [parseValue] at h
      cases hsk : skipWs inp with
      | nil => simp [hsk] at h
      | cons c r =>
        have hlen := skipWs_length_le inp
        rw [hsk] at hlen h
        simp only [List.length_cons] at hlen
        simp only at h
        by_cases c123 : c = 123
        · rw [if_pos c123] at h
          cases hsk2 : skipWs r with
          | nil => simp [hsk2] at h
          | cons d r1 =>
            have hlen2 := skipWs_length_le r
            rw [hsk2] at hlen2 h
            simp only [List.length_cons] at hlen2
            simp only at h
            by_cases d125 : d = 125
            · rw [if_pos d125] at h
              cases h
              refine ⟨by omega, ?_⟩
              intro G hG
              cases G with
              | zero => omega
              | succ g => simp [parseValue, hsk, hsk2, c123, d125]
            · rw [if_neg d125] at h
              obtain ⟨hl, hG⟩ := ihM _ _ _ _ h
              simp only [List.length_cons] at hl
              refine ⟨by omega, ?_⟩
              intro G hGle
              cases G with
              | zero => omega
              | succ g =>
                simp only [parseValue, hsk, hsk2, c123, d125, if_true, if_false]
                exact hG g (by simp only [List.length_cons]; omega)
        rw [if_neg c123] at h
        by_cases c91 : c = 91
        · rw [if_pos c91] at h
          cases hsk2 : skipWs r with
          | nil => simp [hsk2] at h
          | cons d r1 =>
            have hlen2 := skipWs_length_le r
            rw [hsk2] at hlen2 h
            simp only [List.length_cons] at hlen2
            simp only at h
            by_cases d93 : d = 93
            · rw [if_pos d93] at h
              cases h
              refine ⟨by omega, ?_⟩
              intro G hG
              cases G with
              | zero => omega
              | succ g => simp [parseValue, hsk, hsk2, c91, d93]
            · rw [if_neg d93] at h
              obtain ⟨hl, hG⟩ := ihE _ _ _ _ h
              simp only [List.length_cons] at hl
              refine ⟨by omega, ?_⟩
              intro G hGle
              cases G with
              | zero => omega
              | succ g =>
                simp only [parseValue, hsk, hsk2, c91, d93, if_true, if_false]
                exact hG g (by simp only [List.length_cons]; omega)
        rw [if_neg c91] at h
        by_cases c34 : c = 34
        · rw [if_pos c34] at h
          cases hp : parseStringChars r with
          | none => simp [hp] at h
          | some p =>
            have hl := parseStringChars_length r p.1 p.2 hp
            simp only [hp, Option.map_some', Option.some.injEq, Prod.mk.injEq] at h
            obtain ⟨rfl, rfl⟩ := h
            refine ⟨by omega, ?_⟩
            intro G hG
            cases G with
            | zero => omega
            | succ g => simp [parseValue, hsk, c34, hp]
        rw [if_neg c34] at h
        by_cases c116 : c = 116
        · rw [if_pos c116] at h
          split at h
          · cases h
            simp only [List.length_cons] at hlen
            refine ⟨by omega, ?_⟩
            intro G hG
            cases G with
            | zero => omega
            | succ g => simp [parseValue, hsk, c116]
          · cases h
        rw [if_neg c116] at h
        by_cases c102 : c = 102
        · rw [if_pos c102] at h
          split at h
          · cases h
            simp only [List.length_cons] at hlen
            refine ⟨by omega, ?_⟩
            intro G hG
            cases G with
            | zero => omega
            | succ g => simp [parseValue, hsk, c102]
          · cases h
        rw [if_neg c102] at h
        by_cases c110 : c = 110
        · rw [if_pos c110] at h
          split at h
          · cases h
            simp only [List.length_cons] at hlen
            refine ⟨by omega, ?_⟩
            intro G hG
            cases G with
            | zero => omega
            | succ g => simp [parseValue, hsk, c110]
          · cases h
        rw [if_neg c110] at h
        cases hp : parseNumber (c :: r) with
        | none => simp [hp] at h
        | some p =>
          have hl := parseNumber_length (c :: r) p.1 p.2 hp
          simp only [List.length_cons] at hl
          simp only [hp, Option.map_some', Option.some.injEq, Prod.mk.injEq] at h
          obtain ⟨rfl, rfl⟩ := h
          refine ⟨by omega, ?_⟩
          intro G hG
          cases G with
          | zero => omega
          | succ g => simp [parseValue, hsk, c123, c91, c34, c116, c102, c110, hp]
    · intro inp acc v rest h
      rw [parseElements] at h
      cases hv : parseValue f inp with
      | none => simp [hv] at h
      | some p =>
        obtain ⟨v1, r1⟩ := p
        obtain ⟨hl1, hG1⟩ := ihV _ _ _ hv
        rw [hv] at h
        simp only at h
        cases hsk : skipWs r1 with
        | nil => simp [hsk] at h
        | cons d r2 =>
          have hlen := skipWs_length_le r1
          rw [hsk] at hlen h
          simp only [List.length_cons] at hlen
          simp only at h
          by_cases d44 : d = 44
          · rw [if_pos d44] at h
            obtain ⟨hl2, hG2⟩ := ihE _ _ _ _ h
            refine ⟨by omega, ?_⟩
            intro G hG
            cases G with
            | zero => omega
            | succ g =>
              rw [parseElements, hG1 g (by omega)]
              simp only [hsk, d44, if_true]
              exact hG2 g (by omega)
          · rw [if_neg d44] at h
            by_cases d93 : d = 93
            · rw [if_pos d93] at h
              cases h
              refine ⟨by omega, ?_⟩
              intro G hG
              cases G with
              | zero => omega
              | succ g =>
                rw [parseElements, hG1 g (by omega)]
                simp [hsk, d93]
            · rw [if_neg d93] at h
              cases h
    · intro inp acc v rest h
      rw [parseMembers] at h
      cases hsk : skipWs inp with
      | nil => simp [hsk] at h
      | cons q r =>
        have hlen := skipWs_length_le inp
        rw [hsk] at hlen h
        simp only [List.length_cons] at hlen
        simp only at h
        by_cases q34 : q = 34
        · rw [if_pos q34] at h
          cases hp : parseStringChars r with
          | none => simp [hp] at h
          | some p =>
            obtain ⟨k, r1⟩ := p
            have hlk := parseStringChars_length r k r1 hp
            rw [hp] at h
            simp only at h
            cases hsk2 : skipWs r1 with
            | nil => simp [hsk2] at h
            | cons col r2 =>
              have hlen2 := skipWs_length_le r1
              rw [hsk2] at hlen2 h
              simp only [List.length_cons] at hlen2
              simp only at h
              by_cases c58 : col = 58
              · rw [if_pos c58] at h
                cases hv : parseValue f r2 with
                | none => simp [hv] at h
                | some pv =>
                  obtain ⟨v1, r3⟩ := pv
                  obtain ⟨hl1, hG1⟩ := ihV _ _ _ hv
                  rw [hv] at h
                  simp only at h
                  cases hsk3 : skipWs r3 with
                  | nil => simp [hsk3] at h
                  | cons d r4 =>
                    have hlen3 := skipWs_length_le r3
                    rw [hsk3] at hlen3 h
                    simp only [List.length_cons] at hlen3
                    simp only at h
                    by_cases d44 : d = 44
                    · rw [if_pos d44] at h
                      obtain ⟨hl2, hG2⟩ := ihM _ _ _ _ h
                      refine ⟨by omega, ?_⟩
                      intro G hG
                      cases G with
                      | zero => omega
                      | succ g =>
                        rw [parseMembers]
                        simp only [hsk, q34, if_true, hp, hsk2, c58, hG1 g (by omega), hsk3, d44]
                        exact hG2 g (by omega)
                    · rw [if_neg d44] at h
                      by_cases d125 : d = 125
                      · rw [if_pos d125] at h
                        cases h
                        refine ⟨by omega, ?_⟩
                        intro G hG
                        cases G with
                        | zero => omega
                        | succ g =>
                          rw [parseMembers]
                          simp [hsk, q34, hp, hsk2, c58, hG1 g (by omega), hsk3, d125]
                      · rw [if_neg d125] at h
                        cases h
              · rw [if_neg c58] at h
                cases h
        · rw [if_neg q34] at h
          cases h

theorem parseValue_fuel_enough (F : Nat) (text : JSString) (v : JSValue) (rest : List Nat)
    (h : parseValue F text = some (v, rest)) :
    parseValue (text.length + 1) text = some (v, rest) :=
  ((parse_fuel_enough F).1 text v rest h).2 (text.length + 1) (by omega)


/-- More fuel never changes the verdict of `JSON.parse`: any amount of fuel
above the length of the text reads what `text.length + 1` reads. -/
theorem parseValue_fuel_stable (G : Nat) (text : JSString) (hG : text.length + 1 ≤ G) :
    parseValue G text = parseValue (text.length + 1) text := by
  cases h1 : parseValue G text with
  | some p => exact (parseValue_fuel_enough G text p.1 p.2 h1).symm
  | none =>
    cases h2 : parseValue (text.length + 1) text with
    | none => rfl
    | some p =>
      have h3 := ((parse_fuel_enough _).1 text p.1 p.2 h2).2 G (by omega)
      rw [h1] at h3
      cases h3

/-! ## Persistence: theorems -/

/-- C6, as amended. When nothing is stored under `'tasks'`, or `JSON.parse`
throws on the stored text, startup completes normally (the `SyntaxError` is
caught and only logged) and leaves the task list empty; the storage then holds
the text `[]` written by the first run of `saveTasks`. -/
theorem startup_fallback (st : Storage)
    (h : st.getItem tasksKey = none ∨
      ∃ s e, st.getItem tasksKey = some s ∧ JSON.parse s = Except.error e) :
    ∃ a, startup st = Except.ok (LoadResult.state a) ∧
      a.tasks = [] ∧ a.storage.getItem tasksKey = some [91, 93] := by
  rcases h with h | ⟨s, e, hs, he⟩
  · exact ⟨saveTasks (App.initial st),
      by simp [startup, loadTasksResume, loadTasksTry, h], rfl,
      by simp [saveTasks, App.initial, Storage.getItem, Storage.setItem, JSON.stringify,
        joinComma]⟩
  · by_cases hnil : s = []
    · exact ⟨saveTasks (App.initial st),
        by simp [startup, loadTasksResume, loadTasksTry, hs, hnil], rfl,
        by simp [saveTasks, App.initial, Storage.getItem, Storage.setItem, JSON.stringify,
          joinComma]⟩
    · refine ⟨{ saveTasks (App.initial st) with
          effects := (saveTasks (App.initial st)).effects ++
            [Effect.consoleError "Erro ao carregar tarefas:"] }, ?_, rfl, ?_⟩
      · simp [startup, loadTasksResume, loadTasksTry, hs, hnil, he]
      · simp [saveTasks, App.initial, Storage.getItem, Storage.setItem, JSON.stringify,
          joinComma]

theorem startup_fallback_witness :
    (corruptStorage.getItem tasksKey = none ∨
      ∃ s e, corruptStorage.getItem tasksKey = some s ∧ JSON.parse s = Except.error e) ∧
    ∃ a, startup corruptStorage = Except.ok (LoadResult.state a) ∧
      a.tasks = [] ∧ a.storage.getItem tasksKey = some [91, 93] :=
  ⟨Or.inr ⟨[123], JSError.jsonSyntax, by decide, rfl⟩,
    startup_fallback corruptStorage (Or.inr ⟨[123], JSError.jsonSyntax, by decide, rfl⟩)⟩

/-- C6, as stated, fails. The stored text `5` does not decode to a task list
(it parses to a number), yet startup does not fall back to the empty list:
`setTasks` is called with the number, which becomes the value of `tasks`. -/
theorem startup_keeps_non_list_payload :
    numberStorage.getItem tasksKey = some [53] ∧
    JSON.parse [53] = Except.ok (JSValue.number [53]) ∧
    tasksOfJS (JSValue.number [53]) = none ∧
    startup numberStorage = Except.ok (LoadResult.untyped (JSValue.number [53])) ∧
    ¬ ∃ a, startup numberStorage = Except.ok (LoadResult.state a) ∧ a.tasks = [] := by
  have hs : startup numberStorage = Except.ok (LoadResult.untyped (JSValue.number [53])) :=
    rfl
  refine ⟨by decide, rfl, rfl, hs, ?_⟩
  rintro ⟨a, ha, _⟩
  rw [hs] at ha
  cases ha

/-- C7. After `addTask` with a non-blank text, after `toggleTaskCompleted` and
after a confirmed `deleteTask` (of a present or an absent `id`), the value
stored under `'tasks'` is `JSON.stringify` of the whole task list as it stands
after the handler, whatever was stored before; and adding a task to an empty
list and then deleting it by its `id` leaves the list empty and the text `[]`
in the storage. -/
theorem save_on_mutation (a : App) (now : Int) (id : JSString) :
    (0 < (trim a.newTask).length →
      (addTask now a).storage.getItem tasksKey
        = some (JSON.stringify (addTask now a).tasks)) ∧
    (toggleTaskCompleted id a).storage.getItem tasksKey
      = some (JSON.stringify (toggleTaskCompleted id a).tasks) ∧
    (deleteTask id DeleteChoice.excluir a).storage.getItem tasksKey
      = some (JSON.stringify (deleteTask id DeleteChoice.excluir a).tasks) ∧
    (0 < (trim a.newTask).length → a.tasks = [] →
      (deleteTask (numberToString now) DeleteChoice.excluir (addTask now a)).tasks = [] ∧
      (deleteTask (numberToString now) DeleteChoice.excluir (addTask now a)).storage.getItem
        tasksKey = some [91, 93]) := by
  refine ⟨?_, ?_, ?_, ?_⟩
  · intro h
    have hgt : (trim a.newTask).length > 0 := h
    simp [addTask, hgt, setTasks, saveTasks, Storage.getItem, Storage.setItem]
  · simp [toggleTaskCompleted, setTasks, saveTasks, Storage.getItem, Storage.setItem]
  · simp [deleteTask, setTasks, saveTasks, Storage.getItem, Storage.setItem]
  · intro h hnil
    have hgt : (trim a.newTask).length > 0 := h
    simp [addTask, hgt, deleteTask, setTasks, saveTasks, Storage.getItem, Storage.setItem,
      hnil, JSON.stringify, joinComma]

theorem save_on_mutation_witness :
    (0 < (trim sampleTyped.newTask).length) ∧ sampleTyped.tasks = [] ∧
    (addTask 5 sampleTyped).storage.getItem tasksKey
      = some (JSON.stringify (addTask 5 sampleTyped).tasks) ∧
    ((deleteTask (numberToString 5) DeleteChoice.excluir (addTask 5 sampleTyped)).tasks = [] ∧
      (deleteTask (numberToString 5) DeleteChoice.excluir
        (addTask 5 sampleTyped)).storage.getItem tasksKey = some [91, 93]) :=
  ⟨by decide, rfl, (save_on_mutation sampleTyped 5 []).1 (by decide),
    (save_on_mutation sampleTyped 5 []).2.2.2 (by decide) rfl⟩

/-- C8. Two calls of `addTask` that read the same value from `Date.now()`
give two tasks with the same `id`: the ids of the list are not pairwise
distinct. -/
theorem addTask_same_timestamp_duplicate_id :
    (addTask 1700000000000 (setNewTask [98]
      (addTask 1700000000000 (setNewTask [97] (App.initial emptyStorage))))).tasks
      = [{ id := [49, 55, 48, 48, 48, 48, 48, 48, 48, 48, 48, 48, 48], text := [97],
           completed := false },
         { id := [49, 55, 48, 48, 48, 48, 48, 48, 48, 48, 48, 48, 48], text := [98],
           completed := false }] ∧
    ¬ ((addTask 1700000000000 (setNewTask [98]
      (addTask 1700000000000 (setNewTask [97] (App.initial emptyStorage))))).tasks.map
        Task.id).Nodup := by
  decide


/-- C5. For every list of task records, `JSON.parse` of its `JSON.stringify`
succeeds with the array of the same records, in the same order and with the
same `id`, `text` and `completed`; read back as a task list that value is the
list itself, so `loadTasks` after `saveTasks` puts the same list in `tasks`. -/
theorem json_roundtrip (tasks : List Task) :
    JSON.parse (JSON.stringify tasks) = Except.ok (tasksToJS tasks) ∧
    tasksOfJS (tasksToJS tasks) = some tasks ∧
    ∀ (newTask : JSString) (storage : Storage) (effects : List Effect),
      ∃ a, loadTasks (saveTasks
          { tasks := tasks, newTask := newTask, storage := storage, effects := effects })
          = Except.ok (LoadResult.state a) ∧ a.tasks = tasks := by
  refine ⟨parse_stringify tasks, tasksOfJS_tasksToJS tasks, ?_⟩
  intro newTask storage effects
  have hne : JSON.stringify tasks ≠ [] := by simp [JSON.stringify]
  refine ⟨setTasks (fun _ => tasks) (saveTasks
    { tasks := tasks, newTask := newTask, storage := storage, effects := effects }), ?_, rfl⟩
  · simp only [loadTasks, loadTasksResume, loadTasksTry, saveTasks, Storage.getItem,
      Storage.setItem, if_pos, if_neg hne, parse_stringify, tasksOfJS_tasksToJS]

end TaskApp
